import Mathlib

/-!
Verification of the r128 transcoder/normalizer against its specification.

The definitions below are shallow embeddings of the Python source:

* `Database` embeds `src/database.py` (the JSON result cache);
* the stream scanner and pattern matchers embed `src/ffmpeg.py`
  (`FFmpegProcess.__next__`, `FFmpeg._get_duration`,
  `FFmpeg._single_file_conversion`, `FFmpeg.analyze_volume`);
* the bridge state machine models the worker-thread/queue protocol of
  `FFmpeg._thread_dead` / `LAME._thread_dead`;
* `lameNext` embeds `LAMEProcess.__next__` from `src/lame.py`.

Python `dict` values are modelled as insertion-ordered association lists,
machine floats as rationals (the inputs considered are exact decimals, so
binary representation error does not arise), and byte strings as lists of
naturals.
-/

namespace R128

/-! ### Database (src/database.py)

`Database.db_data` is `None` until a load or first store, afterwards a
Python dict.  Python truthiness of the dict (`if self.db_data:`) is false
both for `None` and for the empty dict, which the two `match`/`if` layers
below reproduce. -/

structure Database (α : Type) where
  db_data : Option (List (String × α))
deriving DecidableEq

/-- Embeds `Database.get_entry`: `if self.db_data:` then `self.db_data[md5]`
with `KeyError` mapped to `None`; otherwise `None`. -/
def get_entry {α : Type} (db : Database α) (md5 : String) : Option α :=
  match db.db_data with
  | some l => if !l.isEmpty then l.lookup md5 else none
  | none => none

/-- Embeds `Database.set_entry`: on a truthy dict, insert only when
`md5 not in self.db_data.keys()` (a present key is left untouched);
on a falsy `db_data` start a fresh dict holding only this entry.
`_commit` does not change the in-memory state. -/
def set_entry {α : Type} (db : Database α) (md5 : String) (value : α) : Database α :=
  match db.db_data with
  | some l =>
    if !l.isEmpty then
      if !((l.map Prod.fst).contains md5) then ⟨some (l ++ [(md5, value)])⟩
      else db
    else ⟨some [(md5, value)]⟩
  | none => ⟨some [(md5, value)]⟩

/-- Whether the key is present in the underlying dict (Python
`md5 in db_data.keys()`), independent of the stored value. -/
def hasKey {α : Type} (db : Database α) (md5 : String) : Bool :=
  match db.db_data with
  | some l => (l.lookup md5).isSome
  | none => false

/-- Embeds the cache-hit test of `init_db` (src/normalize.py):
`if not conf.db.get_entry(input_file_md5):` re-runs the analysis pass.
Python `not` is true for `None` and for a zero numeric value. -/
def init_db_runs_analysis (db : Database ℚ) (k : String) : Bool :=
  match get_entry db k with
  | none => true
  | some v => decide (v = 0)

lemma lookup_eq_none_iff {α : Type} (l : List (String × α)) (k : String) :
    l.lookup k = none ↔ ((l.map Prod.fst).contains k) = false := by
  induction l with
  | nil => simp
  | cons p tl ih =>
    obtain ⟨a, b⟩ := p
    simp only [List.lookup, List.map_cons, List.contains_cons]
    cases hbeq : k == a with
    | true => simp
    | false => simpa [hbeq] using ih

lemma lookup_append_last {α : Type} (l : List (String × α)) (k : String) (v : α)
    (h : l.lookup k = none) : (l ++ [(k, v)]).lookup k = some v := by
  induction l with
  | nil => simp [List.lookup]
  | cons p tl ih =>
    obtain ⟨a, b⟩ := p
    simp only [List.lookup, List.cons_append] at h ⊢
    cases hbeq : k == a with
    | true => rw [hbeq] at h; simp at h
    | false =>
      rw [hbeq] at h
      simp only [hbeq]
      exact ih h

/-- C1. Cache idempotence: starting from a state where key `k` is absent
(so `v1` is the value that gets stored first), a second `set_entry` on the
now-present key is a silent no-op — it leaves the database unchanged —
and `get_entry` still returns `v1`. -/
theorem cache_set_idempotent {α : Type} (db : Database α) (k : String) (v1 v2 : α)
    (h : get_entry db k = none) :
    set_entry (set_entry db k v1) k v2 = set_entry db k v1 ∧
    get_entry (set_entry (set_entry db k v1) k v2) k = some v1 := by
  match hd : db.db_data with
  | none =>
    have hdb : db = ⟨none⟩ := by cases db; simp_all
    subst hdb
    constructor
    · simp [set_entry]
    · simp [set_entry, get_entry, List.lookup]
  | some [] =>
    have hdb : db = ⟨some []⟩ := by cases db; simp_all
    subst hdb
    constructor
    · simp [set_entry]
    · simp [set_entry, get_entry, List.lookup]
  | some (p :: tl) =>
    have hdb : db = ⟨some (p :: tl)⟩ := by cases db; simp_all
    subst hdb
    have hlk : (p :: tl).lookup k = none := by
      simpa [get_entry] using h
    have hcont : (((p :: tl).map Prod.fst).contains k) = false :=
      (lookup_eq_none_iff _ _).mp hlk
    have hstep1 : set_entry (⟨some (p :: tl)⟩ : Database α) k v1 =
        ⟨some (p :: (tl ++ [(k, v1)]))⟩ := by
      simp only [set_entry, List.isEmpty_cons, Bool.not_false, if_true]
      rw [hcont]
      simp
    have hlk2 : (p :: (tl ++ [(k, v1)])).lookup k = some v1 := by
      have := lookup_append_last (p :: tl) k v1 hlk
      simpa using this
    have hcont2 : (((p :: (tl ++ [(k, v1)])).map Prod.fst).contains k) = true := by
      cases hc : (((p :: (tl ++ [(k, v1)])).map Prod.fst).contains k) with
      | true => rfl
      | false =>
        rw [(lookup_eq_none_iff _ _).mpr hc] at hlk2
        exact absurd hlk2 (by simp)
    have hnoop : set_entry (⟨some (p :: (tl ++ [(k, v1)]))⟩ : Database α) k v2 =
        ⟨some (p :: (tl ++ [(k, v1)]))⟩ := by
      simp only [set_entry, List.isEmpty_cons, Bool.not_false, if_true]
      rw [hcont2]
      simp
    constructor
    · rw [hstep1, hnoop]
    · rw [hstep1, hnoop]
      simp [get_entry, hlk2]

/-- Witness for `cache_set_idempotent` at a concrete empty database. -/
theorem cache_set_idempotent_witness :
    set_entry (set_entry (⟨none⟩ : Database ℕ) "k" 1) "k" 2 =
      set_entry (⟨none⟩ : Database ℕ) "k" 1 ∧
    get_entry (set_entry (set_entry (⟨none⟩ : Database ℕ) "k" 1) "k" 2) "k" = some 1 :=
  cache_set_idempotent (⟨none⟩ : Database ℕ) "k" 1 2 rfl

/-- C10. A key absent from the dict (or an entirely empty cache) reads as
`none`; and because `init_db` tests the returned value for truthiness, a
present key whose stored value is `0` is treated as a cache miss and the
analysis pass is re-run. -/
theorem zero_value_treated_as_cache_miss :
    (∀ (db : Database ℚ) (k : String), hasKey db k = false → get_entry db k = none) ∧
    (∀ (db : Database ℚ) (k : String), get_entry db k = some 0 →
      hasKey db k = true ∧ init_db_runs_analysis db k = true) := by
  constructor
  · intro db k h
    match hd : db.db_data with
    | none => simp [get_entry, hd]
    | some l =>
      have hlk : l.lookup k = none := by
        cases hp : l.lookup k with
        | none => rfl
        | some v => simp [hasKey, hd, hp] at h
      simp [get_entry, hd, hlk]
  · intro db k h
    refine ⟨?_, ?_⟩
    · match hd : db.db_data with
      | none => simp [get_entry, hd] at h
      | some l =>
        simp only [get_entry, hd] at h
        cases hl : l.isEmpty with
        | true => rw [hl] at h; simp at h
        | false =>
          rw [hl] at h
          simp only [Bool.not_false, if_true] at h
          simp [hasKey, hd, h]
    · unfold init_db_runs_analysis
      rw [h]
      simp

/-- Witness for `zero_value_treated_as_cache_miss` at concrete databases. -/
theorem zero_value_treated_as_cache_miss_witness :
    get_entry (⟨none⟩ : Database ℚ) "a" = none ∧
    init_db_runs_analysis ⟨some [("a", 0)]⟩ "a" = true :=
  ⟨zero_value_treated_as_cache_miss.1 ⟨none⟩ "a" rfl,
   (zero_value_treated_as_cache_miss.2 ⟨some [("a", 0)]⟩ "a" (by decide)).2⟩

/-! ### StreamBridge termination test (FFmpeg._thread_dead, LAME._thread_dead)

The worker thread enqueues the non-empty diagnostic lines onto an
unbounded `queue.Queue` and exits after its `N`-th line (scenario of the
claim).  The foreground consumes from the queue.  The state records
whether the worker is still alive (`threading.Thread.is_alive`), how many
lines it has enqueued and how many the foreground has consumed; the queue
size is `enqueued - consumed`. -/

structure BridgeState where
  workerAlive : Bool
  enqueued : ℕ
  consumed : ℕ
deriving DecidableEq

/-- Interleaving steps for a worker that enqueues `N` lines and then
exits: the worker may enqueue while alive and short of `N`, may exit once
all `N` lines are enqueued, and the foreground may consume whenever the
queue is non-empty. -/
inductive BridgeStep (N : ℕ) : BridgeState → BridgeState → Prop
  | enqueue (e c : ℕ) : e < N → BridgeStep N ⟨true, e, c⟩ ⟨true, e + 1, c⟩
  | workerDone (c : ℕ) : BridgeStep N ⟨true, N, c⟩ ⟨false, N, c⟩
  | consume (a : Bool) (e c : ℕ) : c < e → BridgeStep N ⟨a, e, c⟩ ⟨a, e, c + 1⟩

def BridgeReachable (N : ℕ) (s : BridgeState) : Prop :=
  Relation.ReflTransGen (BridgeStep N) ⟨true, 0, 0⟩ s

/-- Embeds `_thread_dead`:
`(not self._thread.is_alive()) and self._queue.empty()`. -/
def thread_dead (s : BridgeState) : Bool :=
  (!s.workerAlive) && (s.enqueued - s.consumed == 0)

lemma bridge_invariant (N : ℕ) (s : BridgeState) (h : BridgeReachable N s) :
    s.consumed ≤ s.enqueued ∧ s.enqueued ≤ N ∧
      (s.workerAlive = false → s.enqueued = N) := by
  induction h with
  | refl => simp
  | tail _ hstep ih =>
    cases hstep with
    | enqueue e c he => simp_all; omega
    | workerDone c => simp_all
    | consume a e c hce => simp_all; omega

lemma bridge_reach_enqueued (N k : ℕ) (hk : k ≤ N) :
    BridgeReachable N ⟨true, k, 0⟩ := by
  induction k with
  | zero => exact Relation.ReflTransGen.refl
  | succ n ih =>
    exact Relation.ReflTransGen.tail (ih (Nat.le_of_succ_le hk))
      (BridgeStep.enqueue n 0 (Nat.lt_of_succ_le hk))

lemma bridge_reach_consumed (N c : ℕ) (hc : c ≤ N) :
    BridgeReachable N ⟨false, N, c⟩ := by
  induction c with
  | zero =>
    exact Relation.ReflTransGen.tail (bridge_reach_enqueued N N le_rfl)
      (BridgeStep.workerDone 0)
  | succ n ih =>
    exact Relation.ReflTransGen.tail (ih (Nat.le_of_succ_le hc))
      (BridgeStep.consume false N n (Nat.lt_of_succ_le hc))

/-- C5. The foreground's stream-finished test (`_thread_dead`, for both
tools) is worker-not-alive AND queue-empty; for a worker that enqueues
`N` lines and exits, in every reachable interleaving the test is true only
once all `N` lines have been consumed — never before — and the drained
state is reachable (no deadlock). -/
theorem stream_finished_only_after_drain (N : ℕ) :
    (∀ s : BridgeState, BridgeReachable N s → thread_dead s = true →
      s.consumed = N) ∧
    BridgeReachable N ⟨false, N, N⟩ ∧
    thread_dead ⟨false, N, N⟩ = true := by
  refine ⟨?_, bridge_reach_consumed N N le_rfl, by simp [thread_dead]⟩
  intro s hreach hdead
  obtain ⟨h1, h2, h3⟩ := bridge_invariant N s hreach
  simp only [thread_dead, Bool.and_eq_true, Bool.not_eq_true', beq_iff_eq] at hdead
  obtain ⟨ha, hq⟩ := hdead
  have := h3 ha
  omega

/-- Witness for `stream_finished_only_after_drain` at `N = 2`. -/
theorem stream_finished_only_after_drain_witness :
    thread_dead ⟨false, 2, 2⟩ = true ∧
    (⟨false, 2, 2⟩ : BridgeState).consumed = 2 :=
  ⟨(stream_finished_only_after_drain 2).2.2,
   (stream_finished_only_after_drain 2).1 ⟨false, 2, 2⟩
     (bridge_reach_consumed 2 2 (by decide)) (by decide)⟩

/-! ### Launch-error discrimination (FFmpegProcess._run, LAMEProcess._run)

`Popen` failures: `FileNotFoundError` (a subclass of `OSError`, caught by
the first `except` clause) becomes the tool's NotFoundError; any other
`OSError` (e.g. permission denied) becomes the tool's ProcessError. -/

inductive SpawnFailure
  | fileNotFound (msg : String)
  | permissionDenied (msg : String)
  | otherOSError (msg : String)
deriving DecidableEq

inductive FFmpegError
  | notFound (msg : String)
  | processError (msg : String)
deriving DecidableEq

inductive LAMEError
  | notFound (msg : String)
  | processError (msg : String)
deriving DecidableEq

/-- Embeds `FFmpegProcess._run`: a successful `Popen` returns normally;
`FileNotFoundError` raises `FFmpegNotFoundError`; any other `OSError`
raises `FFmpegProcessError`. -/
def ffmpegProcessRun : Option SpawnFailure → Except FFmpegError Unit
  | none => .ok ()
  | some (.fileNotFound m) => .error (.notFound m)
  | some (.permissionDenied m) => .error (.processError m)
  | some (.otherOSError m) => .error (.processError m)

/-- Embeds `LAMEProcess._run` (which re-raises `err.strerror`):
`FileNotFoundError` raises `LAMENotFoundError`; any other `OSError`
raises `LAMEProcessError`. -/
def lameProcessRun : Option SpawnFailure → Except LAMEError Unit
  | none => .ok ()
  | some (.fileNotFound m) => .error (.notFound m)
  | some (.permissionDenied m) => .error (.processError m)
  | some (.otherOSError m) => .error (.processError m)

/-- C7. A missing binary raises the tool-specific NotFound error and any
other OS-level spawn failure (such as permission denied) raises the
tool-specific process error; the two conditions are distinct values, so a
caller can catch them separately. -/
theorem launch_error_discrimination :
    (∀ m, ffmpegProcessRun (some (.fileNotFound m)) = .error (.notFound m)) ∧
    (∀ m, ffmpegProcessRun (some (.permissionDenied m)) = .error (.processError m)) ∧
    (∀ m, ffmpegProcessRun (some (.otherOSError m)) = .error (.processError m)) ∧
    (∀ m m', FFmpegError.notFound m ≠ FFmpegError.processError m') ∧
    (∀ m, lameProcessRun (some (.fileNotFound m)) = .error (.notFound m)) ∧
    (∀ m, lameProcessRun (some (.permissionDenied m)) = .error (.processError m)) ∧
    (∀ m m', LAMEError.notFound m ≠ LAMEError.processError m') := by
  refine ⟨fun m => rfl, fun m => rfl, fun m => rfl, ?_, fun m => rfl, fun m => rfl, ?_⟩
  · intro m m'
    simp
  · intro m m'
    simp

/-! ### Stream scanner (FFmpegProcess.__next__)

The scanner reads the child's stderr one byte at a time.  Each byte is
decoded on its own with `bytes.decode("utf-8")`: a single byte decodes
exactly when it is ASCII (below 0x80); any other byte raises
`UnicodeDecodeError` and is replaced by a single space.  When the
accumulated buffer contains a carriage return the joined, stripped line is
returned; exhaustion of the stream raises `StopIteration` (a sentinel). -/

/-- Decoding of one byte as done per-iteration in `__next__`. -/
def pyDecodeByte (b : ℕ) : Char :=
  if b < 128 then Char.ofNat b else ' '

/-- Python `str` whitespace in the ASCII range (what `str.strip` removes
from the decoded lines, whose characters are all ASCII). -/
def isSpaceChar (c : Char) : Bool :=
  c == ' ' || c == '\t' || c == '\n' || c == '\x0b' || c == '\x0c' || c == '\r' ||
    (28 ≤ c.toNat && c.toNat ≤ 31)

/-- Python `str.strip()` on a list of characters. -/
def pyStrip (l : List Char) : List Char :=
  ((l.dropWhile isSpaceChar).reverse.dropWhile isSpaceChar).reverse

/-- One call of `FFmpegProcess.__next__`: consume bytes, appending each
decoded character to the buffer, until the buffer contains `'\r'`; then
return the stripped line and the unread rest.  `none` is the
`StopIteration` sentinel at end of stream. -/
def ffmpegNextLine (buffer : List Char) : List ℕ → Option (List Char × List ℕ)
  | [] => none
  | b :: rest =>
    let c := pyDecodeByte b
    let buf := buffer ++ [c]
    if '\r' ∈ buf then some (pyStrip buf, rest) else ffmpegNextLine buf rest

lemma ffmpegNextLine_rest_lt (buffer : List Char) (bytes : List ℕ)
    (l : List Char) (rest : List ℕ) (h : ffmpegNextLine buffer bytes = some (l, rest)) :
    rest.length < bytes.length := by
  induction bytes generalizing buffer with
  | nil => simp [ffmpegNextLine] at h
  | cons b tl ih =>
    simp only [ffmpegNextLine] at h
    split at h
    · cases h
      simp
    · exact Nat.lt_trans (ih _ h) (by simp)

/-- Repeated iteration of the scanner over a full byte stream: the list
of all lines yielded before the `StopIteration` sentinel.  Each call of
`__next__` consumes at least one byte, so the stream length bounds the
number of iterations. -/
def ffmpegScanLinesFuel : ℕ → List ℕ → List (List Char)
  | 0, _ => []
  | fuel + 1, bytes =>
    match ffmpegNextLine [] bytes with
    | none => []
    | some (l, rest) => l :: ffmpegScanLinesFuel fuel rest

def ffmpegScanLines (bytes : List ℕ) : List (List Char) :=
  ffmpegScanLinesFuel bytes.length bytes

/-- Modelled from the claim's words: the logical lines of the stream are
the complete segments delimited by a carriage-return character (trailing
bytes after the last delimiter form no line); each decoded segment is
emitted stripped. -/
def crSplitLines (cur : List Char) : List ℕ → List (List Char)
  | [] => []
  | b :: rest =>
    let c := pyDecodeByte b
    if c = '\r' then pyStrip cur :: crSplitLines [] rest
    else crSplitLines (cur ++ [c]) rest

lemma dropWhile_append_cons {α : Type} (p : α → Bool) (l₁ l₂ : List α) (a : α)
    (tl : List α) (h : l₁.dropWhile p = a :: tl) :
    (l₁ ++ l₂).dropWhile p = a :: (tl ++ l₂) := by
  induction l₁ with
  | nil => simp [List.dropWhile] at h
  | cons x xs ih =>
    rw [List.dropWhile_cons] at h
    rw [List.cons_append, List.dropWhile_cons]
    cases hx : p x with
    | true =>
      simp only [hx, if_pos rfl] at h ⊢
      exact ih h
    | false =>
      simp only [hx] at h ⊢
      simp at h ⊢
      exact ⟨h.1, by rw [h.2]⟩

lemma pyStrip_append_space (l : List Char) (c : Char) (h : isSpaceChar c = true) :
    pyStrip (l ++ [c]) = pyStrip l := by
  unfold pyStrip
  cases hd : l.dropWhile isSpaceChar with
  | nil =>
    have hall : ∀ x ∈ l, isSpaceChar x = true := List.dropWhile_eq_nil_iff.mp hd
    have h1 : (l ++ [c]).dropWhile isSpaceChar = [] := by
      apply List.dropWhile_eq_nil_iff.mpr
      intro x hx
      rcases List.mem_append.mp hx with hx | hx
      · exact hall x hx
      · rw [List.mem_singleton.mp hx]
        exact h
    rw [h1]
  | cons a tl =>
    rw [dropWhile_append_cons isSpaceChar l [c] a tl hd]
    have hrev : (a :: (tl ++ [c])).reverse = c :: (a :: tl).reverse := by
      simp
    rw [hrev, List.dropWhile_cons, if_pos h]

lemma crSplit_eq_nextLine (bytes : List ℕ) :
    ∀ buffer : List Char, '\r' ∉ buffer →
      crSplitLines buffer bytes =
        (match ffmpegNextLine buffer bytes with
         | none => []
         | some (l, rest) => l :: crSplitLines [] rest) := by
  induction bytes with
  | nil => intro buffer _; rfl
  | cons b tl ih =>
    intro buffer hbuf
    simp only [crSplitLines, ffmpegNextLine]
    by_cases hc : pyDecodeByte b = '\r'
    · rw [if_pos hc]
      have hmem : '\r' ∈ buffer ++ [pyDecodeByte b] := by simp [hc]
      rw [if_pos hmem]
      have hstrip : pyStrip (buffer ++ [pyDecodeByte b]) = pyStrip buffer := by
        rw [hc]
        exact pyStrip_append_space buffer '\r' (by decide)
      rw [hstrip]
    · rw [if_neg hc]
      have hmem : '\r' ∉ buffer ++ [pyDecodeByte b] := by
        simp only [List.mem_append, List.mem_singleton]
        rintro (hx | hx)
        · exact hbuf hx
        · exact hc hx.symm
      rw [if_neg hmem]
      exact ih (buffer ++ [pyDecodeByte b]) hmem

lemma ffmpegScanLinesFuel_eq (fuel : ℕ) :
    ∀ bytes : List ℕ, bytes.length ≤ fuel →
      ffmpegScanLinesFuel fuel bytes = crSplitLines [] bytes := by
  induction fuel with
  | zero =>
    intro bytes h
    have : bytes = [] := List.length_eq_zero.mp (Nat.le_zero.mp h)
    subst this
    rfl
  | succ n ih =>
    intro bytes h
    rw [crSplit_eq_nextLine bytes [] (by simp)]
    simp only [ffmpegScanLinesFuel]
    cases hnl : ffmpegNextLine [] bytes with
    | none => rfl
    | some pr =>
      obtain ⟨l, rest⟩ := pr
      have hlt := ffmpegNextLine_rest_lt [] bytes l rest hnl
      show l :: ffmpegScanLinesFuel n rest = l :: crSplitLines [] rest
      rw [ih rest (by omega)]

/-- C6. The scanner yields exactly the carriage-return-delimited logical
lines of the byte stream, each stripped; a byte that is not valid ASCII
(hence fails to decode on its own as UTF-8) is replaced by a single
space; and end of stream is a sentinel (`none`), not an error. -/
theorem scanner_yields_cr_delimited_lines :
    (∀ bytes : List ℕ, ffmpegScanLines bytes = crSplitLines [] bytes) ∧
    (∀ b : ℕ, 128 ≤ b → pyDecodeByte b = ' ') ∧
    (∀ buffer : List Char, ffmpegNextLine buffer [] = none) := by
  refine ⟨?_, ?_, fun buffer => rfl⟩
  · intro bytes
    exact ffmpegScanLinesFuel_eq bytes.length bytes le_rfl
  · intro b hb
    simp [pyDecodeByte, Nat.not_lt_of_ge hb]

/-- Witness for `scanner_yields_cr_delimited_lines` on a concrete stream:
`"Hi\r"` followed by an invalid byte and a second carriage return. -/
theorem scanner_yields_cr_delimited_lines_witness :
    ffmpegScanLines [72, 105, 13, 200, 13] = crSplitLines [] [72, 105, 13, 200, 13] ∧
    pyDecodeByte 200 = ' ' :=
  ⟨scanner_yields_cr_delimited_lines.1 [72, 105, 13, 200, 13],
   scanner_yields_cr_delimited_lines.2.1 200 (by decide)⟩

/-! ### Pipeline truncation (LAMEProcess.__next__)

In the producer/consumer pipeline (ffmpeg piping into lame), each byte
read of the producer's stderr is preceded by a poll of the consumer: if
the consumer has already exited (`poll()` not `None`) while bytes are
still arriving, `LAMEProcessError("unexpected termination")` is raised. -/

def lameNext (consumerExited : Bool) (buffer : List Char) :
    List ℕ → Except LAMEError (Option (List Char × List ℕ))
  | [] => .ok none
  | b :: rest =>
    if consumerExited then .error (.processError "unexpected termination")
    else
      let c := pyDecodeByte b
      let buf := buffer ++ [c]
      if '\r' ∈ buf then .ok (some (pyStrip buf, rest))
      else lameNext consumerExited buf rest

/-- C9. If the consumer stage has exited while the producer's diagnostic
stream still has bytes to deliver, the next read reports the
"unexpected termination" process error; end of stream without a consumer
exit remains the normal sentinel. -/
theorem pipeline_truncation_reported :
    (∀ (buffer : List Char) (b : ℕ) (rest : List ℕ),
      lameNext true buffer (b :: rest) =
        .error (.processError "unexpected termination")) ∧
    (∀ (x : Bool) (buffer : List Char), lameNext x buffer [] = .ok none) := by
  exact ⟨fun buffer b rest => rfl, fun x buffer => rfl⟩

/-! ### Pattern matchers over diagnostic lines (src/ffmpeg.py)

`re` patterns embedded over lists of characters.  `\s` is a single
whitespace character; `\d\d` is a validated two-digit field. -/

def digitVal (c : Char) : Option ℕ :=
  if 48 ≤ c.toNat && c.toNat ≤ 57 then some (c.toNat - 48) else none

def twoDigits (a b : Char) : Option ℕ :=
  match digitVal a, digitVal b with
  | some x, some y => some (10 * x + y)
  | _, _ => none

/-- Embeds `re.search(r"^Duration:\s(\d\d):(\d\d):(\d\d)\.(\d\d)", data)`
from `_get_duration`: anchored at the start of the line, yielding the four
captured two-digit fields. -/
def durationMatch : List Char → Option (ℕ × ℕ × ℕ × ℕ)
  | 'D' :: 'u' :: 'r' :: 'a' :: 't' :: 'i' :: 'o' :: 'n' :: ':' :: w :: h1 :: h2 ::
      ':' :: m1 :: m2 :: ':' :: s1 :: s2 :: '.' :: c1 :: c2 :: _ =>
    if isSpaceChar w then
      match twoDigits h1 h2, twoDigits m1 m2, twoDigits s1 s2, twoDigits c1 c2 with
      | some hh, some mm, some ss, some cc => some (hh, mm, ss, cc)
      | _, _, _, _ => none
    else none
  | _ => none

/-- The duration/elapsed arithmetic shared verbatim by `_get_duration` and
`_single_file_conversion`: round the seconds up when the centiseconds
field exceeds 50, then form whole seconds. -/
def roundedSeconds (hh mm ss ms : ℕ) : ℕ :=
  let ss2 := if ms > 50 then ss + 1 else ss
  hh * 60 * 60 + mm * 60 + ss2

def parseDurationLine (l : List Char) : Option ℕ :=
  (durationMatch l).map (fun f => roundedSeconds f.1 f.2.1 f.2.2.1 f.2.2.2)

/-- One anchored attempt of
`time=(\d\d):(\d\d):(\d\d).(\d\d)` (the dot in the pattern is an
unescaped `.`, any character except a newline). -/
def timeAtStart : List Char → Option (ℕ × ℕ × ℕ × ℕ)
  | 't' :: 'i' :: 'm' :: 'e' :: '=' :: h1 :: h2 :: ':' :: m1 :: m2 :: ':' :: s1 ::
      s2 :: d :: c1 :: c2 :: _ =>
    if d = '\n' then none
    else
      match twoDigits h1 h2, twoDigits m1 m2, twoDigits s1 s2, twoDigits c1 c2 with
      | some hh, some mm, some ss, some cc => some (hh, mm, ss, cc)
      | _, _, _, _ => none
  | _ => none

/-- Embeds `re.search(r"^.*time=(\d\d):(\d\d):(\d\d).(\d\d)", data)` from
`_single_file_conversion`: the greedy `.*` makes the match start at the
last position where the rest of the pattern completes. -/
def convTimeMatch : List Char → Option (ℕ × ℕ × ℕ × ℕ)
  | [] => none
  | c :: rest =>
    match convTimeMatch rest with
    | some r => some r
    | none => timeAtStart (c :: rest)

def parseConvTimeLine (l : List Char) : Option ℕ :=
  (convTimeMatch l).map (fun f => roundedSeconds f.1 f.2.1 f.2.2.1 f.2.2.2)

/-- Substring containment (Python `in` on strings). -/
def containsSub (pat : List Char) : List Char → Bool
  | [] => pat.isEmpty
  | c :: rest => pat.isPrefixOf (c :: rest) || containsSub pat rest

/-- Embeds the `"Error" in data` test of the conversion loops. -/
def containsError (l : List Char) : Bool :=
  containsSub "Error".data l

/-- Greedy completion of `(.*)\s+TOKEN` over the reversed remainder of
the line: the capture extends to the last occurrence of the token that is
preceded by a whitespace character (the greedy group leaves exactly one
whitespace to `\s+`/`\s`). -/
def goTok (tokRev : List Char) : List Char → Option (List Char)
  | [] => none
  | c :: rest =>
    if tokRev.isPrefixOf (c :: rest) then
      match (c :: rest).drop tokRev.length with
      | w :: _ =>
        if isSpaceChar w then some (((c :: rest).drop (tokRev.length + 1)).reverse)
        else goTok tokRev rest
      | [] => goTok tokRev rest
    else goTok tokRev rest

/-- Shared tail of the `PREFIX\s+(.*)\sTOKEN`-style patterns: insist on at
least one whitespace character, let `\s+` greedily take the whole run,
then complete greedily before the token. -/
def matchTailTok (tokRev : List Char) (afterColon : List Char) : Option (List Char) :=
  match afterColon with
  | w :: _ =>
    if isSpaceChar w then goTok tokRev ((afterColon.dropWhile isSpaceChar).reverse)
    else none
  | [] => none

/-- Embeds `re.search(r"^I:\s+(.*)\sLUFS", data)` from `analyze_volume`. -/
def lufsMatch : List Char → Option (List Char)
  | 'I' :: ':' :: rest => matchTailTok ['S', 'F', 'U', 'L'] rest
  | _ => none

/-- Embeds `re.search(r"^Peak:\s+(.*)\sdBFS", data)` from `analyze_volume`. -/
def peakMatch : List Char → Option (List Char)
  | 'P' :: 'e' :: 'a' :: 'k' :: ':' :: rest => matchTailTok ['S', 'F', 'B', 'd'] rest
  | _ => none

/-- One anchored attempt of the head of `t:\s+...`: the position must
carry `t`, `:` and at least one whitespace character. -/
def tColonAt : List Char → Option (List Char)
  | 't' :: ':' :: w :: rest => if isSpaceChar w then some (w :: rest) else none
  | _ => none

/-- Embeds `re.search(r"t:\s+(.*)\s+M", data)` from `analyze_volume`: the
pattern is unanchored, so the match starts at the leftmost `t:` followed
by whitespace. -/
def analysisTimeMatch : List Char → Option (List Char)
  | [] => none
  | c :: rest =>
    match tColonAt (c :: rest) with
    | some tail => matchTailTok ['M'] tail
    | none => analysisTimeMatch rest

def digitsToNatAux : ℕ → List Char → Option ℕ
  | acc, [] => some acc
  | acc, c :: rest =>
    match digitVal c with
    | some d => digitsToNatAux (acc * 10 + d) rest
    | none => none

def parseFloatUnsigned (t : List Char) : Option ℚ :=
  let intPart := t.takeWhile (fun c => (digitVal c).isSome)
  let rest := t.dropWhile (fun c => (digitVal c).isSome)
  match rest with
  | [] =>
    if intPart.isEmpty then none
    else (digitsToNatAux 0 intPart).map (fun n => mkRat n 1)
  | '.' :: frac =>
    if intPart.isEmpty && frac.isEmpty then none
    else if frac.all (fun c => (digitVal c).isSome) then
      match digitsToNatAux 0 intPart, digitsToNatAux 0 frac with
      | some i, some f => some (mkRat (i * 10 ^ frac.length + f) (10 ^ frac.length))
      | _, _ => none
    else none
  | _ => none

/-- Python `float(str)` on the decimal numerals produced by the tool:
surrounding whitespace is ignored, an optional sign precedes an integer
part and an optional fractional part. -/
def parseFloat (s : List Char) : Option ℚ :=
  match pyStrip s with
  | '-' :: t => (parseFloatUnsigned t).map (fun q => -q)
  | '+' :: t => parseFloatUnsigned t
  | t => parseFloatUnsigned t

/-- Python `round(x, 1)` on the decimal value: round half to even at one
decimal place.  (Binary floating-point representation error is not
modelled; the inputs considered are exact decimals.) -/
def pyRound1 (q : ℚ) : ℚ :=
  let x : ℚ := mkRat (q.num * 10) q.den
  let n : ℤ := Rat.floor x
  let r : ℚ := mkRat (x.num - n * (x.den : ℤ)) x.den
  let k : ℤ :=
    if r < mkRat 1 2 then n
    else if mkRat 1 2 < r then n + 1
    else if n % 2 = 0 then n else n + 1
  mkRat k 10

/-- The elapsed reading of the analysis pass:
`time = round(float(time_re.group(1)), 1)`. -/
def analysisElapsed (l : List Char) : Option ℚ :=
  ((analysisTimeMatch l).bind parseFloat).map pyRound1

/-! ### Conversion and analysis loops (FFmpeg._single_file_conversion,
FFmpeg.analyze_volume)

Both loops drain the queue until `_thread_dead`; here the sequence of
dequeued text lines is processed in order.  The conversion loop reports
`time` when it is below the established duration and the duration
otherwise, and aborts with `FFmpegProcessError(data)` on any line
containing `"Error"`.  The analysis loop reports its decimal elapsed
reading under the same clamp and keeps the latest LUFS/peak values; it
has no error-marker test. -/

def convProcess (d : ℕ) : List (List Char) → List ℕ × Bool
  | [] => ([], false)
  | line :: rest =>
    let rep : List ℕ :=
      match parseConvTimeLine line with
      | some t => [if t < d then t else d]
      | none => []
    if containsError line then (rep, true)
    else
      let pr := convProcess d rest
      (rep ++ pr.1, pr.2)

/-- The elapsed readings parsed by the conversion loop, in stream order. -/
def convTimes (lines : List (List Char)) : List ℕ :=
  lines.filterMap parseConvTimeLine

/-- The prefix of the stream actually processed by the conversion loop:
everything up to and including the first error-marker line. -/
def truncAtError : List (List Char) → List (List Char)
  | [] => []
  | line :: rest =>
    if containsError line then [line] else line :: truncAtError rest

def analyzeProcess (d : ℕ) : ℚ × ℚ → List (List Char) → (ℚ × ℚ) × List ℚ
  | st, [] => (st, [])
  | st, line :: rest =>
    let rep : List ℚ :=
      match analysisElapsed line with
      | some t => [if t < (d : ℚ) then t else (d : ℚ)]
      | none => []
    let lufs2 : ℚ :=
      match (lufsMatch line).bind parseFloat with
      | some x => pyRound1 x
      | none => st.1
    let peak2 : ℚ :=
      match (peakMatch line).bind parseFloat with
      | some x => pyRound1 x
      | none => st.2
    let pr := analyzeProcess d (lufs2, peak2) rest
    (pr.1, rep ++ pr.2)

lemma convProcess_reports_eq (d : ℕ) (lines : List (List Char)) :
    (convProcess d lines).1 =
      (convTimes (truncAtError lines)).map (fun t => if t < d then t else d) := by
  induction lines with
  | nil => rfl
  | cons line rest ih =>
    cases he : containsError line with
    | true =>
      cases hp : parseConvTimeLine line with
      | none => simp [convProcess, convTimes, truncAtError, he, hp]
      | some t => simp [convProcess, convTimes, truncAtError, he, hp]
    | false =>
      cases hp : parseConvTimeLine line with
      | none => simpa [convProcess, convTimes, truncAtError, he, hp] using ih
      | some t => simpa [convProcess, convTimes, truncAtError, he, hp] using ih

lemma truncAtError_prefix (lines : List (List Char)) :
    truncAtError lines <+: lines := by
  induction lines with
  | nil => exact List.prefix_refl _
  | cons line rest ih =>
    cases he : containsError line with
    | true =>
      simp only [truncAtError, he, if_pos rfl]
      exact ⟨rest, rfl⟩
    | false =>
      simp only [truncAtError, he]
      rw [if_neg (by simp)]
      obtain ⟨t, ht⟩ := ih
      exact ⟨t, by rw [List.cons_append, ht]⟩

lemma roundedSeconds_eq (hh mm ss cc : ℕ) :
    roundedSeconds hh mm ss cc = hh * 3600 + mm * 60 + ss + (if 50 < cc then 1 else 0) := by
  simp only [roundedSeconds, gt_iff_lt]
  split <;> omega

/-- C2. Whenever a line matches the anchored `Duration: HH:MM:SS.cc`
pattern, the parsed duration is `hh*3600 + mm*60 + ss`, plus one exactly
when the centiseconds exceed 50; in particular `Duration: 00:01:05.60`
parses to 66 and `Duration: 00:00:10.40` to 10. -/
theorem duration_parse_rounding (l : List Char) (hh mm ss cc : ℕ)
    (h : durationMatch l = some (hh, mm, ss, cc)) :
    parseDurationLine l = some (hh * 3600 + mm * 60 + ss + (if 50 < cc then 1 else 0)) ∧
    parseDurationLine "Duration: 00:01:05.60".data = some 66 ∧
    parseDurationLine "Duration: 00:00:10.40".data = some 10 := by
  refine ⟨?_, by decide, by decide⟩
  simp [parseDurationLine, h, roundedSeconds_eq]

/-- Witness for `duration_parse_rounding` at the spec's example line. -/
theorem duration_parse_rounding_witness :
    parseDurationLine "Duration: 00:01:05.60".data = some 66 :=
  (duration_parse_rounding "Duration: 00:01:05.60".data 0 1 5 60 (by decide)).2.1

/-- C3 counterexample. The analysis pass does not parse elapsed time from
the `HH:MM:SS.cc` format: its pattern is `t: <decimal> M`, so the reading
`9.51` parses to `9.5` (one-decimal rounding, not a whole-second
round-up to 10), and a `time=00:00:09.51` reading does not match the
analysis pattern at all. -/
theorem elapsed_analysis_format_cex :
    analysisElapsed "t: 9.51 M: -18.9".data = some (mkRat 19 2) ∧
    mkRat 19 2 ≠ (10 : ℚ) ∧
    analysisTimeMatch "time=00:00:09.51".data = none := by
  exact ⟨by decide, by decide, by decide⟩

/-- C3 amended. Elapsed readings of the conversion pass are parsed from
`HH:MM:SS.cc` under the round-up rule (`time=00:00:09.51` gives 10); the
analysis pass instead parses its elapsed reading as a decimal-seconds
number rounded to one decimal place (`t: 9.51 M` gives 9.5). -/
theorem elapsed_parse_per_pass (l : List Char) (hh mm ss cc : ℕ)
    (h : convTimeMatch l = some (hh, mm, ss, cc)) :
    parseConvTimeLine l = some (hh * 3600 + mm * 60 + ss + (if 50 < cc then 1 else 0)) ∧
    parseConvTimeLine "time=00:00:09.51".data = some 10 ∧
    analysisElapsed "t: 9.51 M: -18.9".data = some (mkRat 19 2) := by
  refine ⟨?_, by decide, by decide⟩
  simp [parseConvTimeLine, h, roundedSeconds_eq]

/-- Witness for `elapsed_parse_per_pass` at the spec's example reading. -/
theorem elapsed_parse_per_pass_witness :
    parseConvTimeLine "time=00:00:09.51".data = some 10 :=
  (elapsed_parse_per_pass "time=00:00:09.51".data 0 0 9 51 (by decide)).2.1

/-- C4 counterexample. The conversion loop applies only the clamp; an
out-of-order stream of readings (50 seconds, then 30) is reported as
`[50, 30]`, which is not monotonically non-decreasing. -/
theorem progress_monotonicity_cex :
    (convProcess 100 ["time=00:00:50.00".data, "time=00:00:30.00".data]).1 = [50, 30] ∧
    ¬ List.Chain' (· ≤ ·) [(50 : ℕ), 30] := by
  refine ⟨by decide, ?_⟩
  simp only [List.chain'_cons, List.chain'_singleton, and_true]
  omega

/-- C4 amended. The reported progress values are exactly the parsed
readings of the processed stream prefix in arrival order, each clamped to
the established duration, so no report ever exceeds the duration
(overshooting readings report the duration); the sequence is
monotonically non-decreasing whenever the parsed readings arrive
non-decreasing, but the loop neither reorders nor filters readings, so
monotonicity is not guaranteed for an arbitrary out-of-order stream
(clamping can still mask an inversion when readings overshoot). -/
theorem progress_clamped_and_order_preserving (d : ℕ) (lines : List (List Char)) :
    (convProcess d lines).1 =
      (convTimes (truncAtError lines)).map (fun t => if t < d then t else d) ∧
    (∀ r ∈ (convProcess d lines).1, r ≤ d) ∧
    (List.Chain' (· ≤ ·) (convTimes lines) →
      List.Chain' (· ≤ ·) (convProcess d lines).1) := by
  refine ⟨convProcess_reports_eq d lines, ?_, ?_⟩
  · rw [convProcess_reports_eq]
    intro r hr
    obtain ⟨t, _, rfl⟩ := List.mem_map.mp hr
    split <;> omega
  · intro hmono
    rw [convProcess_reports_eq]
    have hpref : convTimes (truncAtError lines) <+: convTimes lines := by
      obtain ⟨t, ht⟩ := truncAtError_prefix lines
      exact ⟨t.filterMap parseConvTimeLine, by
        rw [convTimes, convTimes, ← List.filterMap_append, ht]⟩
    have hpw : List.Pairwise (· ≤ ·) (convTimes lines) :=
      List.chain'_iff_pairwise.mp hmono
    have hpw2 : List.Pairwise (· ≤ ·) (convTimes (truncAtError lines)) :=
      hpw.sublist hpref.sublist
    have hpw3 : List.Pairwise (· ≤ ·)
        ((convTimes (truncAtError lines)).map (fun t => if t < d then t else d)) :=
      hpw2.map _ (fun a b hab => by
        show (if a < d then a else d) ≤ (if b < d then b else d)
        split <;> split <;> omega)
    exact List.chain'_iff_pairwise.mpr hpw3

/-- Witness for `progress_clamped_and_order_preserving` on an in-order
stream. -/
theorem progress_clamped_and_order_preserving_witness :
    (∀ r ∈ (convProcess 100 ["time=00:00:30.00".data, "time=00:00:50.00".data]).1,
      r ≤ 100) ∧
    List.Chain' (· ≤ ·)
      (convProcess 100 ["time=00:00:30.00".data, "time=00:00:50.00".data]).1 :=
  ⟨(progress_clamped_and_order_preserving 100 _).2.1,
   (progress_clamped_and_order_preserving 100 _).2.2 (by
     have h : convTimes ["time=00:00:30.00".data, "time=00:00:50.00".data] = [30, 50] := by
       decide
     rw [h]
     simp only [List.chain'_cons, List.chain'_singleton, and_true]
     omega)⟩

/-- C8 counterexample. The analysis pass has no error-marker test: the
line `Error: disk full` matches none of its patterns and is ignored (the
state is unchanged and nothing is reported, with no abort), whereas the
conversion pass does abort on the same line. -/
theorem error_marker_analysis_cex :
    analyzeProcess 10 (0, 0) ["Error: disk full".data] = ((0, 0), []) ∧
    (convProcess 10 ["Error: disk full".data]).2 = true := by
  exact ⟨by decide, by decide⟩

/-- C8 amended. In the conversion pass a line containing the literal
`Error` aborts the job (`FFmpegProcessError`), and a line matching no
known pattern and no marker is ignored without error; the analysis pass
ignores unmatched lines as well — including error-marker lines, which it
does not abort on. -/
theorem error_marker_per_pass (d : ℕ) (st : ℚ × ℚ) (line : List Char)
    (rest : List (List Char)) :
    (containsError line = true → (convProcess d (line :: rest)).2 = true) ∧
    (parseConvTimeLine line = none → containsError line = false →
      convProcess d (line :: rest) = convProcess d rest) ∧
    (analysisTimeMatch line = none → lufsMatch line = none → peakMatch line = none →
      analyzeProcess d st (line :: rest) = analyzeProcess d st rest) := by
  refine ⟨?_, ?_, ?_⟩
  · intro he
    simp [convProcess, he]
  · intro hp he
    simp [convProcess, hp, he]
  · intro h1 h2 h3
    simp [analyzeProcess, analysisElapsed, h1, h2, h3]

/-- Witness for `error_marker_per_pass` at concrete lines. -/
theorem error_marker_per_pass_witness :
    (convProcess 10 ["Error: disk full".data]).2 = true ∧
    convProcess 7 ["unrecognized line".data] = convProcess 7 [] ∧
    analyzeProcess 7 (0, 0) ["unrecognized line".data] = analyzeProcess 7 (0, 0) [] :=
  ⟨(error_marker_per_pass 10 (0, 0) "Error: disk full".data []).1 (by decide),
   (error_marker_per_pass 7 (0, 0) "unrecognized line".data []).2.1 (by decide) (by decide),
   (error_marker_per_pass 7 (0, 0) "unrecognized line".data []).2.2 (by decide) (by decide)
     (by decide)⟩

end R128
